/-
Verification of the photo.py S3 transfer utility against its design
specification.  The Python source is shallowly embedded: its pure path
manipulation (os.path.join, str.split, os.path.basename, os.walk key
derivation), the directory-creation loop of download_bucket, listing,
the single-object download executor, and the task-launching structure of
the asyncio command runners are translated into executable Lean
definitions, and the specified properties are settled against them.
-/
import Mathlib

set_option maxRecDepth 10000

namespace Photo

/-! ## POSIX path primitives

Python strings are modelled as Lean `String`s (sequences of characters).
`pjoin` embeds `posixpath.join` for two arguments: if the second part is
absolute it wins; joining onto the empty string or onto a string ending
in the separator appends without inserting a separator; otherwise a `/`
is inserted.  `pysplit` embeds `str.split("/")` (empty pieces are kept,
as in Python).  `basename` embeds `os.path.basename` on POSIX: the part
after the last `/`. -/

/-- `s.startswith("/")` in Python terms. -/
def startsWithSlash (s : String) : Bool := s.data.head? == some '/'

/-- `s.endswith("/")` in Python terms. -/
def endsWithSlash (s : String) : Bool := s.data.getLast? == some '/'

/-- `posixpath.join(a, b)`:  `b` absolute wins; empty or `/`-terminated
`a` concatenates directly; otherwise a separator is inserted. -/
def pjoin (a b : String) : String :=
  if startsWithSlash b then b
  else if a = "" then b
  else if endsWithSlash a then a ++ b
  else a ++ "/" ++ b

/-- Python `s.split("/")`: splits on every occurrence, keeping empty
pieces. -/
def pysplit (s : String) : List String :=
  (s.data.splitOn '/').map List.asString

/-- `os.path.basename(p)` on POSIX: the part after the last `/`. -/
def basename (p : String) : String :=
  (pysplit p).getLastD ""

/-! ## Local filesystem trees

`os.walk` operates on a real directory tree; we model the tree rooted at
the uploaded directory as a mutual inductive (a directory holds an
ordered forest of children, mirroring the listing order `os.walk`
reports). -/

mutual
inductive FTree : Type where
  | file (nm : String) : FTree
  | dir (nm : String) (children : FForest) : FTree

inductive FForest : Type where
  | fnil : FForest
  | fcons (t : FTree) (ts : FForest) : FForest
end

/-- The regular files directly inside a directory's child list — the
`files` component of an `os.walk` tuple. -/
def filesOf : FForest → List String
  | .fnil => []
  | .fcons (.file nm) ts => nm :: filesOf ts
  | .fcons (.dir _ _) ts => filesOf ts

mutual
/-- `os.walk(base/name)` for the tree rooted at the given node: yields
`(dirpath, filenames)` for the directory itself, then recurses into its
subdirectories in order (top-down).  Walking a non-directory yields
nothing, as `os.walk` does. -/
def walk (base : String) : FTree → List (String × List String)
  | .file _ => []
  | .dir nm cs => (pjoin base nm, filesOf cs) :: walkForest (pjoin base nm) cs

def walkForest (base : String) : FForest → List (String × List String)
  | .fnil => []
  | .fcons t ts => walk base t ++ walkForest base ts
end

/-- The task-building loop of `upload(src, bucket, tasks, loop)`:
`src_full` is the walked root, `one_level_upper` its parent directory;
for each walked `(path, files)` the key is `path[len(one_level_upper)+1:]`
and each file contributes a task `(os.path.join(path, file),
os.path.join(key, file))` — (local source file, object key). -/
def upload_tasks (one_level_upper : String) (tree : FTree) : List (String × String) :=
  (walk one_level_upper tree).flatMap (fun pr =>
    pr.2.map (fun f =>
      (pjoin pr.1 f, pjoin (pr.1.drop (one_level_upper.length + 1)) f)))

/-! ## Specification-side key derivation

`relWalk` lists each directory of the tree by its path relative to the
root's parent (so the top directory's own name is the first segment),
with its files; `relKeys` derives from it the spec's `uploadKeyFor`
image: the `/`-joined path of every file relative to the root's parent. -/

mutual
/-- The directories of the tree, each as its `/`-joined path relative to
the parent of the root, paired with its immediate files. -/
def relWalk : FTree → List (String × List String)
  | .file _ => []
  | .dir nm cs =>
    (nm, filesOf cs) :: (relWalkForest cs).map (fun e => (nm ++ "/" ++ e.1, e.2))

def relWalkForest : FForest → List (String × List String)
  | .fnil => []
  | .fcons t ts => relWalk t ++ relWalkForest ts
end

/-- All object keys the spec's `uploadKeyFor` assigns to the files of the
tree: the file's path relative to the root directory's parent, `/`
separated. -/
def relKeys (t : FTree) : List String :=
  (relWalk t).flatMap (fun e => e.2.map (fun f => e.1 ++ "/" ++ f))

/-- A valid filesystem entry name: nonempty and free of the path
separator. -/
def validName (nm : String) : Bool :=
  (nm != "") && decide ('/' ∉ nm.data)

mutual
def validTree : FTree → Bool
  | .file nm => validName nm
  | .dir nm cs => validName nm && validForest cs

def validForest : FForest → Bool
  | .fnil => true
  | .fcons t ts => validTree t && validForest ts
end

/-- The `photos/` example tree of the specification: `a.jpg` and
`sub/b.jpg`. -/
def photosTree : FTree :=
  .dir "photos" (.fcons (.file "a.jpg")
    (.fcons (.dir "sub" (.fcons (.file "b.jpg") .fnil)) .fnil))

/-! ## download_bucket: destination paths and directory creation

The local filesystem's existing paths are modelled as a list of strings.
`os.mkdir` raises `FileExistsError` on an existing path; the code guards
every call with `os.path.exists`. -/

deriving instance DecidableEq for Except

/-- `os.mkdir(d)`: errors if the path already exists. -/
def os_mkdir (fs : List String) (d : String) : Except String (List String) :=
  if d ∈ fs then .error "FileExistsError" else .ok (d :: fs)

/-- The inner loop of `download_bucket` over `directories`:
`outdir = os.path.join(outdir, directory); if not exists: mkdir`.
Returns the final `outdir`, the filesystem state, and how many
directories were actually created. -/
def mkdir_loop (fs : List String) (outdir : String) :
    List String → Except String (String × List String × Nat)
  | [] => .ok (outdir, fs, 0)
  | d :: ds =>
    if pjoin outdir d ∈ fs then mkdir_loop fs (pjoin outdir d) ds
    else
      match os_mkdir fs (pjoin outdir d) with
      | .error e => .error e
      | .ok fs2 =>
        (mkdir_loop fs2 (pjoin outdir d) ds).map (fun r => (r.1, r.2.1, r.2.2 + 1))

/-- One iteration of `download_bucket`'s Contents loop for an object key:
`directories = [bucket] + key.split("/")[:-1]` are created in turn
starting from `outdir = ""`, and the download destination is
`os.path.join(outdir, os.path.basename(key))`.  Returns the destination
path, the filesystem state, and the number of directories created. -/
def process_key (bucket key : String) (fs : List String) :
    Except String (String × List String × Nat) :=
  (mkdir_loop fs "" (bucket :: (pysplit key).dropLast)).map
    (fun r => (pjoin r.1 (basename key), r.2.1, r.2.2))

/-- The chain of `outdir` values the loop passes through (the directories
it ensures exist), in creation order. -/
def pchain (pre : String) : List String → List String
  | [] => []
  | d :: ds => pjoin pre d :: pchain (pjoin pre d) ds

/-! ## Bucket listing -/

structure ObjOwner where
  displayName : String
  id : String
deriving DecidableEq, Repr

/-- One entry of a listing response's `Contents`: `Owner.DisplayName`,
`Owner.ID`, `LastModified` (already `strftime`-rendered — datetime
formatting is external), `Key`. -/
structure S3Obj where
  owner : ObjOwner
  lastModified : String
  key : String
deriving DecidableEq, Repr

/-- One line printed by `list_bucket` for one object: an empty
`DisplayName` is replaced by `"unknown"`, then
`"{} {} {} {}".format(owner_name, owner_id, dt, key)`. -/
def list_line (obj : S3Obj) : String :=
  let nm0 := obj.owner.displayName
  let nm1 := if nm0.length = 0 then "unknown" else nm0
  nm1 ++ " " ++ obj.owner.id ++ " " ++ obj.lastModified ++ " " ++ obj.key

/-- The full output of the `list` command: one line per object of the
response's `Contents`, in order. -/
def list_bucket_output (contents : List S3Obj) : List String :=
  contents.map list_line

/-- A bucket's objects as the storage API pages them: element `i` is the
`Contents` of the `i`-th page. -/
structure PagedBucket where
  pages : List (List S3Obj)
deriving DecidableEq

/-- The single `client.list_objects(Bucket=bucket)` request the code
issues: no continuation `Marker` is passed, so the service returns the
first page. -/
def list_objects_call (b : PagedBucket) : List S3Obj := b.pages.headD []

/-- The listing phase of `download_bucket` / `list_bucket`: the object
records the code goes on to process, paired with the number of listing
requests performed (the code performs exactly one and never follows a
continuation token). -/
def listing_run (b : PagedBucket) : List S3Obj × Nat :=
  (list_objects_call b, 1)

/-- The listing the specification describes: paging through the
continuation mechanism until exhaustion yields the union of all pages. -/
def specListAll (b : PagedBucket) : List S3Obj := b.pages.flatten

/-! ## The single-object download executor -/

/-- Result of the `get_object` request: a streamed body, or a
`ClientError` carrying `response["Error"]["Message"]`. -/
inductive GetObjectResp : Type where
  | ok (body : List Nat) : GetObjectResp
  | clientError (msg : String) : GetObjectResp
deriving DecidableEq

inductive DLOutcome : Type where
  | completed : DLOutcome
  | exited (msg : String) : DLOutcome
deriving DecidableEq, Repr

/-- Trace of one `download_one_file` invocation. -/
structure DLRun where
  getCalls : Nat
  outcome : DLOutcome
  reads : List (List Nat)
  written : Option (List Nat)
deriving DecidableEq, Repr

/-- `download_one_file(src, dest, bucket, loop)`: issues one `get_object`;
on `ClientError` it calls `sys.exit(message)` inside the task; otherwise
it performs a single `stream.read()` returning the entire body and writes
that data to the destination file. -/
def download_one_file (resp : GetObjectResp) : DLRun :=
  match resp with
  | .clientError msg => ⟨1, .exited msg, [], none⟩
  | .ok body => ⟨1, .completed, [body], some body⟩

/-- The largest single `stream.read()` payload of a run — the peak buffer
the executor holds in memory. -/
def maxReadSize (r : DLRun) : Nat :=
  (r.reads.map List.length).foldr max 0

/-! ## The get and upload commands -/

structure DLTask where
  src : String
  dest : String
  bucket : String
deriving DecidableEq, Repr

inductive GetCmd : Type where
  | exited (msg : String) : GetCmd
  | scheduled (t : DLTask) : GetCmd
deriving DecidableEq, Repr

/-- `get(src, dest, bucket, tasks, loop)`: `sys.exit("{dest} is not
directory")` when the destination is not an existing directory, else one
download task to `os.path.join(dest, os.path.basename(src))`. -/
def get_cmd (isdir : String → Bool) (src dest bucket : String) : GetCmd :=
  if !(isdir dest) then .exited (dest ++ " is not directory")
  else .scheduled ⟨src, pjoin dest (basename src), bucket⟩

/-- Network requests a `get` run issues: an exited run scheduled no task,
so no request is ever made; a scheduled task performs its one
`get_object`. -/
def getNetworkCalls : GetCmd → Nat
  | .exited _ => 0
  | .scheduled _ => 1

/-- `sys.exit` with a string message terminates the process with a
nonzero status. -/
def getExitsNonzero : GetCmd → Bool
  | .exited _ => true
  | .scheduled _ => false

/-- What the filesystem holds at the upload source path. -/
inductive FsNode : Type where
  | missing : FsNode
  | node (t : FTree) : FsNode

def nodeIsDir : FsNode → Bool
  | .node (.dir _ _) => true
  | _ => false

/-- `os.walk` over whatever is at the path: a missing path or a regular
file yields nothing. -/
def walkNode (base : String) : FsNode → List (String × List String)
  | .missing => []
  | .node t => walk base t

structure UploadCmdRun where
  printed : List String
  tasks : List (String × String)
  exitMsg : Option String
deriving DecidableEq, Repr

/-- `upload(src, bucket, tasks, loop)`: when `src` is not a directory it
prints `"{src} is not a directory"` but does not exit; it then walks the
source (nothing for a non-directory) and appends one upload task per
file found, exactly as `upload_tasks`. -/
def upload_cmd (one_level_upper srcName : String) (n : FsNode) : UploadCmdRun :=
  { printed := if !(nodeIsDir n) then [srcName ++ " is not a directory"] else []
    tasks := (walkNode one_level_upper n).flatMap (fun pr =>
      pr.2.map (fun f =>
        (pjoin pr.1 f, pjoin (pr.1.drop (one_level_upper.length + 1)) f)))
    exitMsg := none }

/-! ## Task-launch traces of the asyncio runners

Both `upload` and `download_bucket` create one task per work item with
`asyncio.ensure_future` while never awaiting in between, then issue a
single `asyncio.wait` over the whole list.  So every launch precedes the
one wait, during which the tasks finish in an arbitrary order, and the
wait's barrier completes the run. -/

inductive Ev : Type where
  | launch (i : Nat) : Ev
  | finish (i : Nat) : Ev
  | barrier : Ev
deriving DecidableEq, Repr

def isLaunch : Ev → Bool
  | .launch _ => true
  | _ => false

def isFinish : Ev → Bool
  | .finish _ => true
  | _ => false

def isBarrier : Ev → Bool
  | .barrier => true
  | _ => false

/-- The event trace of one run with `w` work items whose transfers reach
their terminal outcomes in the order `finishOrder`. -/
def run_trace (w : Nat) (finishOrder : List Nat) : List Ev :=
  (List.range w).map Ev.launch ++ finishOrder.map Ev.finish ++ [Ev.barrier]

/-- Transfers outstanding after a prefix of events: launched and not yet
finished. -/
def outstanding (es : List Ev) : Nat :=
  es.countP isLaunch - es.countP isFinish

/-- The largest number of simultaneously outstanding transfers at any
point of the trace. -/
def maxOutstanding (es : List Ev) : Nat :=
  ((List.range (es.length + 1)).map (fun k => outstanding (es.take k))).foldr max 0

/-- Each `asyncio.wait` barrier ends one wave of transfers. -/
def numWaves (es : List Ev) : Nat := es.countP isBarrier

/-- Trace of an `upload` run: one launch per produced upload task,
then the single wait. -/
def upload_trace (one_level_upper : String) (t : FTree) (finishOrder : List Nat) :
    List Ev :=
  run_trace (upload_tasks one_level_upper t).length finishOrder

/-- Trace of a `download_bucket` run: one launch per listed object,
then the single wait. -/
def download_bucket_trace (contents : List S3Obj) (finishOrder : List Nat) :
    List Ev :=
  run_trace contents.length finishOrder

/-- `ceil(w / c)` — the wave count the specification claims. -/
def ceilDiv (w c : Nat) : Nat := (w + c - 1) / c

/-- A throwaway object record for concrete scenarios. -/
def dummyObj : S3Obj := ⟨⟨"owner", "id0"⟩, "2020-01-01 00:00:00 UTC", "k.jpg"⟩

/-- A second record, with an empty owner DisplayName. -/
def dummyObj2 : S3Obj := ⟨⟨"", "id1"⟩, "2021-02-02 00:00:00 UTC", "y/z.jpg"⟩

/-- `"/" + d1 + "/" + d2 + ...`: the `/`-prefixed join of path segments,
used to state what the directory chain of `download_bucket` builds. -/
def sjoin : List String → String
  | [] => ""
  | d :: ds => "/" ++ d ++ sjoin ds

/-! ## String facts -/

theorem data_eq_nil_iff (s : String) : s.data = [] ↔ s = "" := by
  constructor
  · intro h; exact String.ext h
  · intro h; subst h; rfl

theorem validName_iff (nm : String) :
    validName nm = true ↔ nm ≠ "" ∧ '/' ∉ nm.data := by
  simp [validName, Bool.and_eq_true, bne_iff_ne, decide_eq_true_eq]

theorem startsWithSlash_eq_false (nm : String) (h : '/' ∉ nm.data) :
    startsWithSlash nm = false := by
  unfold startsWithSlash
  cases hd : nm.data with
  | nil => rfl
  | cons c l =>
    have hc : c ≠ '/' := fun e => h (by rw [hd, e]; exact List.mem_cons_self _ _)
    simp [hd, hc]

theorem endsWithSlash_eq_false (nm : String) (h : '/' ∉ nm.data) :
    endsWithSlash nm = false := by
  unfold endsWithSlash
  cases hd : nm.data.getLast? with
  | none => rfl
  | some c =>
    obtain ⟨ys, hys⟩ := List.getLast?_eq_some_iff.mp hd
    have hc : c ≠ '/' := fun e => h (by rw [hys, e]; simp)
    simp [hc]

theorem appendSep_ne_empty (a b : String) : a ++ "/" ++ b ≠ "" := by
  intro h
  have hd := congrArg String.data h
  rw [String.data_append, String.data_append] at hd
  simp at hd

theorem appendSep_data (a b : String) :
    (a ++ "/" ++ b).data = a.data ++ '/' :: b.data := by
  rw [String.data_append, String.data_append]
  simp

theorem endsWithSlash_appendSep (a b : String) (hb : b ≠ "") :
    endsWithSlash (a ++ "/" ++ b) = endsWithSlash b := by
  unfold endsWithSlash
  rw [String.data_append, List.getLast?_append]
  cases hg : b.data.getLast? with
  | none => exact absurd (String.ext (List.getLast?_eq_none_iff.mp hg)) hb
  | some c => rfl

theorem startsWithSlash_appendSep (a b : String) (ha : a ≠ "") :
    startsWithSlash (a ++ "/" ++ b) = startsWithSlash a := by
  unfold startsWithSlash
  rw [appendSep_data, List.head?_append_of_ne_nil]
  exact fun h => ha (String.ext h)

theorem pjoin_eq (a b : String) (ha : a ≠ "") (ha2 : endsWithSlash a = false)
    (hb : startsWithSlash b = false) : pjoin a b = a ++ "/" ++ b := by
  simp [pjoin, hb, ha, ha2]

theorem drop_sep (p r : String) : (p ++ "/" ++ r).drop (p.length + 1) = r := by
  apply String.ext
  rw [String.data_drop, appendSep_data]
  have h1 : p.data ++ '/' :: r.data = (p.data ++ ['/']) ++ r.data := by simp
  have h2 : p.length + 1 = (p.data ++ ['/']).length := by
    rw [List.length_append]
    rfl
  rw [h1, h2, List.drop_left]

/-! ## Validity of the specification-side walk -/

theorem filesOf_valid : ∀ (ts : FForest), validForest ts = true →
    ∀ f ∈ filesOf ts, validName f = true
  | .fnil, _, f, hf => absurd hf (by simp [filesOf])
  | .fcons (.file nm) ts, hv, f, hf => by
    rw [validForest, validTree, Bool.and_eq_true] at hv
    rw [filesOf, List.mem_cons] at hf
    rcases hf with hf | hf
    · exact hf ▸ hv.1
    · exact filesOf_valid ts hv.2 f hf
  | .fcons (.dir nm cs) ts, hv, f, hf => by
    rw [validForest, Bool.and_eq_true] at hv
    rw [filesOf] at hf
    exact filesOf_valid ts hv.2 f hf

mutual
theorem relWalk_valid : ∀ (t : FTree), validTree t = true →
    ∀ e ∈ relWalk t,
      (e.1 ≠ "" ∧ startsWithSlash e.1 = false ∧ endsWithSlash e.1 = false) ∧
      ∀ f ∈ e.2, validName f = true
  | .file _, _, e, he => absurd he (by simp [relWalk])
  | .dir nm cs, hv, e, he => by
    rw [validTree, Bool.and_eq_true] at hv
    obtain ⟨hnm, hns⟩ := (validName_iff nm).mp hv.1
    rw [relWalk, List.mem_cons] at he
    rcases he with he | he
    · subst he
      exact ⟨⟨hnm, startsWithSlash_eq_false nm hns, endsWithSlash_eq_false nm hns⟩,
        filesOf_valid cs hv.2⟩
    · rw [List.mem_map] at he
      obtain ⟨e0, he0, heq⟩ := he
      obtain ⟨⟨h1, _, h3⟩, h4⟩ := relWalkForest_valid cs hv.2 e0 he0
      subst heq
      refine ⟨⟨appendSep_ne_empty nm e0.1, ?_, ?_⟩, h4⟩
      · rw [startsWithSlash_appendSep nm e0.1 hnm]
        exact startsWithSlash_eq_false nm hns
      · rw [endsWithSlash_appendSep nm e0.1 h1]
        exact h3

theorem relWalkForest_valid : ∀ (ts : FForest), validForest ts = true →
    ∀ e ∈ relWalkForest ts,
      (e.1 ≠ "" ∧ startsWithSlash e.1 = false ∧ endsWithSlash e.1 = false) ∧
      ∀ f ∈ e.2, validName f = true
  | .fnil, _, e, he => absurd he (by simp [relWalkForest])
  | .fcons t ts, hv, e, he => by
    rw [validForest, Bool.and_eq_true] at hv
    rw [relWalkForest, List.mem_append] at he
    rcases he with he | he
    · exact relWalk_valid t hv.1 e he
    · exact relWalkForest_valid ts hv.2 e he
end

mutual
theorem walk_rel : ∀ (t : FTree), validTree t = true →
    ∀ base : String, base ≠ "" → endsWithSlash base = false →
    walk base t = (relWalk t).map (fun e => (base ++ "/" ++ e.1, e.2))
  | .file _, _, base, _, _ => by simp [walk, relWalk]
  | .dir nm cs, hv, base, hb1, hb2 => by
    rw [validTree, Bool.and_eq_true] at hv
    obtain ⟨hnm, hns⟩ := (validName_iff nm).mp hv.1
    have hpj : pjoin base nm = base ++ "/" ++ nm :=
      pjoin_eq base nm hb1 hb2 (startsWithSlash_eq_false nm hns)
    rw [walk, relWalk, List.map_cons, hpj]
    congr 1
    rw [walkForest_rel cs hv.2 (base ++ "/" ++ nm) (appendSep_ne_empty base nm)
      (by rw [endsWithSlash_appendSep base nm hnm]; exact endsWithSlash_eq_false nm hns)]
    rw [List.map_map]
    apply List.map_congr_left
    intro e _
    simp [Function.comp, String.append_assoc]

theorem walkForest_rel : ∀ (ts : FForest), validForest ts = true →
    ∀ base : String, base ≠ "" → endsWithSlash base = false →
    walkForest base ts = (relWalkForest ts).map (fun e => (base ++ "/" ++ e.1, e.2))
  | .fnil, _, base, _, _ => by simp [walkForest, relWalkForest]
  | .fcons t ts, hv, base, hb1, hb2 => by
    rw [validForest, Bool.and_eq_true] at hv
    rw [walkForest, relWalkForest, List.map_append,
      walk_rel t hv.1 base hb1 hb2, walkForest_rel ts hv.2 base hb1 hb2]
end

/-! ## C6: upload key derivation -/

/-- For a valid tree and a parent directory that is neither empty nor
`/`-terminated, the upload loop derives exactly the spec's keys: each
file gets its `/`-joined path relative to the root's parent, and the
local source is that key resolved under the parent. -/
theorem upload_tasks_rel (parent : String) (t : FTree)
    (hp1 : parent ≠ "") (hp2 : endsWithSlash parent = false)
    (hv : validTree t = true) :
    upload_tasks parent t = (relKeys t).map (fun k => (parent ++ "/" ++ k, k)) := by
  unfold upload_tasks relKeys
  rw [walk_rel t hv parent hp1 hp2, List.flatMap_map, List.map_flatMap]
  apply List.flatMap_congr
  intro e he
  obtain ⟨⟨h1, _, h3⟩, h4⟩ := relWalk_valid t hv e he
  dsimp only
  rw [List.map_map]
  apply List.map_congr_left
  intro f hf
  obtain ⟨_, hf2⟩ := (validName_iff f).mp (h4 f hf)
  have hsw : startsWithSlash f = false := startsWithSlash_eq_false f hf2
  rw [drop_sep parent e.1]
  rw [pjoin_eq (parent ++ "/" ++ e.1) f (appendSep_ne_empty parent e.1)
    (by rw [endsWithSlash_appendSep parent e.1 h1]; exact h3) hsw]
  rw [pjoin_eq e.1 f h1 h3 hsw]
  simp [Function.comp, String.append_assoc]

/-! ## C7: directory creation of download_bucket -/

theorem string_length_eq_zero_iff (s : String) : s.length = 0 ↔ s = "" := by
  rw [show s.length = s.data.length from rfl, List.length_eq_zero]
  exact data_eq_nil_iff s

theorem appendSep_length (a b : String) :
    (a ++ "/" ++ b).length = a.length + 1 + b.length := by
  rw [String.length_append, String.length_append]
  rfl

theorem mkdir_loop_fresh : ∀ (ds : List String) (outdir : String) (fs : List String),
    (∀ d ∈ ds, validName d = true) →
    endsWithSlash outdir = false →
    (∀ f ∈ fs, f.length ≤ outdir.length) →
    mkdir_loop fs outdir ds =
      .ok ((pchain outdir ds).getLastD outdir, (pchain outdir ds).reverse ++ fs, ds.length)
  | [], outdir, fs, _, _, _ => by simp [mkdir_loop, pchain]
  | d :: ds, outdir, fs, hds, ho, hfs => by
    obtain ⟨hd1, hd2⟩ := (validName_iff d).mp (hds d (List.mem_cons_self d ds))
    have hsw : startsWithSlash d = false := startsWithSlash_eq_false d hd2
    have hes : endsWithSlash d = false := endsWithSlash_eq_false d hd2
    have key : (pjoin outdir d) ∉ fs ∧ endsWithSlash (pjoin outdir d) = false ∧
        (∀ f ∈ (pjoin outdir d) :: fs, f.length ≤ (pjoin outdir d).length) := by
      by_cases hout : outdir = ""
      · subst hout
        have hpj : pjoin "" d = d := by simp [pjoin, hsw]
        rw [hpj]
        refine ⟨?_, hes, ?_⟩
        · intro hmem
          have hz : d.length ≤ 0 := hfs d hmem
          exact hd1 ((string_length_eq_zero_iff d).mp (Nat.le_zero.mp hz))
        · intro f hf
          rcases List.mem_cons.mp hf with rfl | hf
          · exact le_refl _
          · exact le_trans (hfs f hf) (Nat.zero_le _)
      · have hpj : pjoin outdir d = outdir ++ "/" ++ d := pjoin_eq outdir d hout ho hsw
        rw [hpj]
        have hlen : (outdir ++ "/" ++ d).length = outdir.length + 1 + d.length :=
          appendSep_length outdir d
        refine ⟨?_, ?_, ?_⟩
        · intro hmem
          have := hfs _ hmem
          omega
        · rw [endsWithSlash_appendSep outdir d hd1]; exact hes
        · intro f hf
          rcases List.mem_cons.mp hf with rfl | hf
          · exact le_refl _
          · have := hfs f hf; omega
    obtain ⟨k1, k2, k3⟩ := key
    have ih := mkdir_loop_fresh ds (pjoin outdir d) ((pjoin outdir d) :: fs)
      (fun x hx => hds x (List.mem_cons_of_mem d hx)) k2 k3
    simp only [mkdir_loop, if_neg k1, os_mkdir, ih, Except.map, pchain,
      List.getLastD_cons, List.reverse_cons, List.length_cons]
    simp [List.append_assoc]

theorem mkdir_loop_mono : ∀ (ds fs : List String) (outdir o : String)
    (fs2 : List String) (n : Nat),
    mkdir_loop fs outdir ds = .ok (o, fs2, n) → ∀ f ∈ fs, f ∈ fs2
  | [], fs, outdir, o, fs2, n, h => by
    simp only [mkdir_loop] at h
    obtain ⟨h1, h2, h3⟩ : outdir = o ∧ fs = fs2 ∧ 0 = n := by simpa using h
    exact h2 ▸ fun f hf => hf
  | d :: ds, fs, outdir, o, fs2, n, h => by
    by_cases hm : pjoin outdir d ∈ fs
    · simp only [mkdir_loop, if_pos hm] at h
      exact mkdir_loop_mono ds fs (pjoin outdir d) o fs2 n h
    · simp only [mkdir_loop, if_neg hm, os_mkdir, if_neg hm] at h
      cases hr : mkdir_loop (pjoin outdir d :: fs) (pjoin outdir d) ds with
      | error e => rw [hr] at h; simp [Except.map] at h
      | ok r =>
        obtain ⟨o1, fs21, n1⟩ := r
        rw [hr] at h
        simp only [Except.map, Except.ok.injEq, Prod.mk.injEq] at h
        have hmono := mkdir_loop_mono ds (pjoin outdir d :: fs) (pjoin outdir d)
          o1 fs21 n1 hr
        intro f hf
        exact h.2.1 ▸ hmono f (List.mem_cons_of_mem _ hf)

theorem mkdir_loop_idem : ∀ (ds fs : List String) (outdir o : String)
    (fs2 : List String) (n : Nat),
    mkdir_loop fs outdir ds = .ok (o, fs2, n) →
    mkdir_loop fs2 outdir ds = .ok (o, fs2, 0)
  | [], fs, outdir, o, fs2, n, h => by
    simp only [mkdir_loop] at h ⊢
    obtain ⟨h1, h2, h3⟩ : outdir = o ∧ fs = fs2 ∧ 0 = n := by simpa using h
    rw [← h1, ← h2]
  | d :: ds, fs, outdir, o, fs2, n, h => by
    by_cases hm : pjoin outdir d ∈ fs
    · simp only [mkdir_loop, if_pos hm] at h
      have hm2 : pjoin outdir d ∈ fs2 :=
        mkdir_loop_mono ds fs (pjoin outdir d) o fs2 n h _ hm
      simp only [mkdir_loop, if_pos hm2]
      exact mkdir_loop_idem ds fs (pjoin outdir d) o fs2 n h
    · simp only [mkdir_loop, if_neg hm, os_mkdir, if_neg hm] at h
      cases hr : mkdir_loop (pjoin outdir d :: fs) (pjoin outdir d) ds with
      | error e => rw [hr] at h; simp [Except.map] at h
      | ok r =>
        obtain ⟨o1, fs21, n1⟩ := r
        rw [hr] at h
        simp only [Except.map, Except.ok.injEq, Prod.mk.injEq] at h
        obtain ⟨ho1, hfs21, hn1⟩ := h
        rw [← ho1, ← hfs21]
        have hm2 : pjoin outdir d ∈ fs21 :=
          mkdir_loop_mono ds (pjoin outdir d :: fs) (pjoin outdir d) o1 fs21 n1 hr _
            (List.mem_cons_self _ _)
        simp only [mkdir_loop, if_pos hm2]
        exact mkdir_loop_idem ds (pjoin outdir d :: fs) (pjoin outdir d) o1 fs21 n1 hr

theorem pchain_getLastD : ∀ (ds : List String) (pre : String),
    pre ≠ "" → endsWithSlash pre = false → (∀ d ∈ ds, validName d = true) →
    (pchain pre ds).getLastD pre = pre ++ sjoin ds ∧
    (pchain pre ds).getLastD pre ≠ "" ∧
    endsWithSlash ((pchain pre ds).getLastD pre) = false
  | [], pre, h1, h2, _ => by
    simp only [pchain, List.getLastD, sjoin]
    exact ⟨(String.append_empty pre).symm, h1, h2⟩
  | d :: ds, pre, h1, h2, hds => by
    obtain ⟨hd1, hd2⟩ := (validName_iff d).mp (hds d (List.mem_cons_self d ds))
    have hpj : pjoin pre d = pre ++ "/" ++ d :=
      pjoin_eq pre d h1 h2 (startsWithSlash_eq_false d hd2)
    have ih := pchain_getLastD ds (pre ++ "/" ++ d) (appendSep_ne_empty pre d)
      (by rw [endsWithSlash_appendSep pre d hd1]; exact endsWithSlash_eq_false d hd2)
      (fun x hx => hds x (List.mem_cons_of_mem d hx))
    simp only [pchain, hpj, List.getLastD_cons]
    refine ⟨?_, ih.2.1, ih.2.2⟩
    rw [ih.1]
    simp [sjoin, String.append_assoc]

theorem sjoin_map_asString : ∀ (ps : List (List Char)),
    (sjoin (ps.map List.asString)).data = (ps.map (fun p => '/' :: p)).flatten
  | [] => rfl
  | p :: ps => by
    simp only [List.map_cons, sjoin, List.flatten_cons]
    rw [String.data_append, String.data_append, sjoin_map_asString ps]
    rfl

theorem flatten_slash : ∀ (ps : List (List Char)), ps ≠ [] →
    (ps.map (fun p => '/' :: p)).flatten = '/' :: List.intercalate ['/'] ps
  | [], h => absurd rfl h
  | [p], _ => by simp [List.intercalate]
  | p :: q :: rest, _ => by
    have ih := flatten_slash (q :: rest) (by simp)
    simp only [List.map_cons, List.flatten_cons] at ih ⊢
    rw [ih]
    simp [List.intercalate, List.intersperse_cons_cons]

theorem sjoin_pysplit (key : String) : sjoin (pysplit key) = "/" ++ key := by
  apply String.ext
  rw [String.data_append]
  unfold pysplit
  rw [sjoin_map_asString, flatten_slash (key.data.splitOn '/')
    (by unfold List.splitOn; exact List.splitOnP_ne_nil _ key.data),
    List.intercalate_splitOn]
  rfl

theorem sjoin_concat (ds : List String) (x : String) :
    sjoin (ds ++ [x]) = sjoin ds ++ "/" ++ x := by
  induction ds with
  | nil => simp [sjoin, String.append_empty, String.append_assoc]
  | cons d ds ih => simp [sjoin, ih, String.append_assoc]

/-- C7: for every object key of N valid `/`-separated segments
downloaded by whole-bucket download into an empty current directory, the
local destination is `bucket/key` (slashes as directories), exactly N
directories — the bucket-name directory included — are created before
the file is written, and re-running the creation on the resulting
filesystem creates nothing and raises no error (creating an existing
directory is guarded). -/
theorem C7_download_path (bucket key : String)
    (hb : validName bucket = true)
    (hk : ∀ s ∈ pysplit key, validName s = true) :
    process_key bucket key [] =
      .ok (bucket ++ "/" ++ key,
        (pchain "" (bucket :: (pysplit key).dropLast)).reverse,
        (pysplit key).length) ∧
    process_key bucket key
        ((pchain "" (bucket :: (pysplit key).dropLast)).reverse) =
      .ok (bucket ++ "/" ++ key,
        (pchain "" (bucket :: (pysplit key).dropLast)).reverse, 0) := by
  obtain ⟨hb1, hb2⟩ := (validName_iff bucket).mp hb
  have hbs : startsWithSlash bucket = false := startsWithSlash_eq_false bucket hb2
  have hbe : endsWithSlash bucket = false := endsWithSlash_eq_false bucket hb2
  set segs := pysplit key with hsegs
  have hds : ∀ d ∈ bucket :: segs.dropLast, validName d = true := by
    intro d hd
    rcases List.mem_cons.mp hd with rfl | hd
    · exact hb
    · exact hk d (List.mem_of_mem_dropLast hd)
  have hfresh := mkdir_loop_fresh (bucket :: segs.dropLast) "" [] hds rfl
    (fun f hf => absurd hf (List.not_mem_nil f))
  rw [List.append_nil] at hfresh
  have hpj0 : pjoin "" bucket = bucket := by simp [pjoin, hbs]
  have hch : pchain "" (bucket :: segs.dropLast) =
      bucket :: pchain bucket segs.dropLast := by
    simp only [pchain, hpj0]
  have hdsd : ∀ d ∈ segs.dropLast, validName d = true :=
    fun d hd => hk d (List.mem_of_mem_dropLast hd)
  have hcj := pchain_getLastD segs.dropLast bucket hb1 hbe hdsd
  have hlast : (pchain "" (bucket :: segs.dropLast)).getLastD "" =
      (pchain bucket segs.dropLast).getLastD bucket := by
    rw [hch, List.getLastD_cons]
  have hpne : segs ≠ [] := by
    rw [hsegs]
    unfold pysplit List.splitOn
    intro hcontra
    rw [List.map_eq_nil_iff] at hcontra
    exact List.splitOnP_ne_nil _ key.data hcontra
  rcases List.eq_nil_or_concat segs with hnil | ⟨init, lastSeg, hconcat⟩
  · exact absurd hnil hpne
  have hconcat' : segs = init ++ [lastSeg] := by
    simpa [List.concat_eq_append] using hconcat
  have hbase : basename key = lastSeg := by
    unfold basename
    rw [← hsegs, hconcat', List.getLastD_concat]
  have hdrop : segs.dropLast = init := by
    rw [hconcat']; exact List.dropLast_concat
  have hlen : segs.length = init.length + 1 := by rw [hconcat']; simp
  have hlv := hk lastSeg (by rw [hconcat']; simp)
  obtain ⟨hl1, hl2⟩ := (validName_iff lastSeg).mp hlv
  have hlsw : startsWithSlash lastSeg = false := startsWithSlash_eq_false lastSeg hl2
  have hdest : pjoin ((pchain "" (bucket :: segs.dropLast)).getLastD "")
      (basename key) = bucket ++ "/" ++ key := by
    rw [hlast, hbase, pjoin_eq _ lastSeg hcj.2.1 hcj.2.2 hlsw, hcj.1, hdrop]
    have h2 : sjoin segs = "/" ++ key := by rw [hsegs]; exact sjoin_pysplit key
    rw [hconcat', sjoin_concat] at h2
    calc bucket ++ sjoin init ++ "/" ++ lastSeg
        = bucket ++ (sjoin init ++ "/" ++ lastSeg) := by
          simp [String.append_assoc]
      _ = bucket ++ ("/" ++ key) := by rw [h2]
      _ = bucket ++ "/" ++ key := by simp [String.append_assoc]
  constructor
  · unfold process_key
    rw [← hsegs, hfresh]
    simp only [Except.map]
    rw [hdest, hlen, hdrop]
    simp
  · have hidem := mkdir_loop_idem (bucket :: segs.dropLast) [] ""
      ((pchain "" (bucket :: segs.dropLast)).getLastD "")
      ((pchain "" (bucket :: segs.dropLast)).reverse)
      (bucket :: segs.dropLast).length hfresh
    unfold process_key
    rw [← hsegs, hidem]
    simp only [Except.map]
    rw [hdest]

/-! ## C1/C2: outstanding transfers and waves of one run -/

theorem le_foldr_max {l : List Nat} {a : Nat} (h : a ∈ l) :
    a ≤ l.foldr max 0 := by
  induction l with
  | nil => cases h
  | cons b l ih =>
    rcases List.mem_cons.mp h with rfl | h
    · exact Nat.le_max_left _ _
    · exact le_trans (ih h) (Nat.le_max_right _ _)

theorem foldr_max_le {l : List Nat} {b : Nat} (h : ∀ a ∈ l, a ≤ b) :
    l.foldr max 0 ≤ b := by
  induction l with
  | nil => exact Nat.zero_le b
  | cons c l ih =>
    exact Nat.max_le.mpr ⟨h c (List.mem_cons_self c l),
      ih (fun a ha => h a (List.mem_cons_of_mem c ha))⟩

theorem countP_launch_run_trace (w : Nat) (order : List Nat) :
    (run_trace w order).countP isLaunch = w := by
  unfold run_trace
  rw [List.countP_append, List.countP_append, List.countP_map, List.countP_map]
  have h1 : List.countP (isLaunch ∘ Ev.launch) (List.range w) = w := by
    have hall : List.countP (isLaunch ∘ Ev.launch) (List.range w) =
        (List.range w).length := List.countP_eq_length.mpr (fun a _ => rfl)
    rw [hall]
    exact List.length_range w
  have h2 : List.countP (isLaunch ∘ Ev.finish) order = 0 :=
    List.countP_eq_zero.mpr (fun a _ => by simp [Function.comp, isLaunch])
  have h3 : List.countP isLaunch [Ev.barrier] = 0 := rfl
  rw [h1, h2, h3]
  omega

theorem outstanding_le (es : List Ev) (k : Nat) :
    outstanding (es.take k) ≤ es.countP isLaunch := by
  unfold outstanding
  exact le_trans (Nat.sub_le _ _)
    ((List.take_sublist k es).countP_le isLaunch)

theorem take_launches (w : Nat) (order : List Nat) :
    (run_trace w order).take w = (List.range w).map Ev.launch := by
  unfold run_trace
  rw [List.append_assoc]
  simp

theorem outstanding_launches (w : Nat) :
    outstanding ((List.range w).map Ev.launch) = w := by
  unfold outstanding
  have h1 : List.countP isLaunch ((List.range w).map Ev.launch) = w := by
    rw [List.countP_map]
    have hall : List.countP (isLaunch ∘ Ev.launch) (List.range w) =
        (List.range w).length := List.countP_eq_length.mpr (fun a _ => rfl)
    rw [hall]
    exact List.length_range w
  have h2 : List.countP isFinish ((List.range w).map Ev.launch) = 0 := by
    rw [List.countP_map]
    exact List.countP_eq_zero.mpr (fun a _ => by simp [Function.comp, isFinish])
  rw [h1, h2]
  omega

/-- Every item of a run is outstanding at once: the point after the last
`ensure_future` and before any completion has all `w` transfers in
flight, and no point has more. -/
theorem run_trace_max (w : Nat) (order : List Nat) :
    maxOutstanding (run_trace w order) = w := by
  apply le_antisymm
  · apply foldr_max_le
    intro a ha
    rw [List.mem_map] at ha
    obtain ⟨k, _, hk⟩ := ha
    rw [← hk]
    exact le_trans (outstanding_le _ k)
      (le_of_eq (countP_launch_run_trace w order))
  · apply le_foldr_max
    rw [List.mem_map]
    refine ⟨w, ?_, ?_⟩
    · rw [List.mem_range]
      have : w ≤ (run_trace w order).length := by
        simp [run_trace]
      omega
    · rw [take_launches w order, outstanding_launches w]

/-- Exactly one `asyncio.wait` barrier per run: the whole task list is
one wave. -/
theorem run_trace_waves (w : Nat) (order : List Nat) :
    numWaves (run_trace w order) = 1 := by
  unfold numWaves run_trace
  rw [List.countP_append, List.countP_append, List.countP_map, List.countP_map]
  have h1 : List.countP (isBarrier ∘ Ev.launch) (List.range w) = 0 :=
    List.countP_eq_zero.mpr (fun a _ => by simp [Function.comp, isBarrier])
  have h2 : List.countP (isBarrier ∘ Ev.finish) order = 0 :=
    List.countP_eq_zero.mpr (fun a _ => by simp [Function.comp, isBarrier])
  have h3 : List.countP isBarrier [Ev.barrier] = 1 := rfl
  rw [h1, h2, h3]

/-- The barrier is the final event of the run. -/
theorem run_trace_getLast (w : Nat) (order : List Nat) :
    (run_trace w order).getLast? = some Ev.barrier := by
  unfold run_trace
  exact List.getLast?_concat _

/-! ## Claim theorems, witnesses, counterexamples -/

/-- C1 (counterexample): with 11 listed objects the whole-bucket download
has all 11 transfers outstanding simultaneously at the point after the
last launch — exceeding the claimed default bound of 10. -/
theorem C1_counterexample :
    maxOutstanding (download_bucket_trace (List.replicate 11 dummyObj) []) = 11 ∧
    ¬(11 ≤ 10) := by decide

/-- C1 (amended): the code has no concurrency limiter and no permit pool:
every transfer of an upload or whole-bucket-download run is launched
before the single wait, so the number of simultaneously outstanding
transfers reaches exactly the number of work items W — the only bound is
W itself, whatever order the transfers reach their outcomes in. -/
theorem C1_amended (p : String) (t : FTree) (contents : List S3Obj)
    (ord1 ord2 : List Nat) :
    maxOutstanding (upload_trace p t ord1) = (upload_tasks p t).length ∧
    maxOutstanding (download_bucket_trace contents ord2) = contents.length :=
  ⟨run_trace_max _ _, run_trace_max _ _⟩

/-- C2 (counterexample): 11 work items with the claimed concurrency 10
should give ceil(11/10) = 2 waves; the code executes exactly 1. -/
theorem C2_counterexample :
    numWaves (download_bucket_trace (List.replicate 11 dummyObj) []) = 1 ∧
    ceilDiv 11 10 = 2 ∧ (1 : Nat) ≠ 2 := by decide

/-- C2 (amended): every run executes in exactly one wave regardless of
the number of work items: all transfers are launched up front and the
single `asyncio.wait` barrier is the final event of the run, so the
claimed `ceil(W/C)` count holds only when it equals 1. -/
theorem C2_amended (p : String) (t : FTree) (contents : List S3Obj)
    (ord1 ord2 : List Nat) :
    numWaves (upload_trace p t ord1) = 1 ∧
    numWaves (download_bucket_trace contents ord2) = 1 ∧
    (upload_trace p t ord1).getLast? = some Ev.barrier ∧
    (download_bucket_trace contents ord2).getLast? = some Ev.barrier :=
  ⟨run_trace_waves _ _, run_trace_waves _ _,
    run_trace_getLast _ _, run_trace_getLast _ _⟩

/-- C3 (counterexample): for a bucket whose objects span two pages, the
single unpaginated `list_objects` call yields only the first page's
objects, not the union of both pages. -/
theorem C3_counterexample :
    (listing_run ⟨[[dummyObj], [dummyObj2]]⟩).1 = [dummyObj] ∧
    specListAll ⟨[[dummyObj], [dummyObj2]]⟩ = [dummyObj, dummyObj2] ∧
    ([dummyObj] : List S3Obj) ≠ [dummyObj, dummyObj2] := by decide

/-- C3 (amended): the listing performs exactly one page fetch and never
follows the continuation mechanism; it yields exactly the first page's
objects, which equals the union of all pages only when the bucket spans
a single page. -/
theorem C3_amended (b : PagedBucket) :
    (listing_run b).2 = 1 ∧
    (listing_run b).1 = b.pages.headD [] ∧
    (∀ pg, b.pages = [pg] → (listing_run b).1 = specListAll b) := by
  refine ⟨rfl, rfl, ?_⟩
  intro pg hpg
  simp [listing_run, list_objects_call, specListAll, hpg]

/-- C3 (witness): instantiation on a one-page bucket. -/
theorem C3_witness :
    (listing_run ⟨[[dummyObj]]⟩).1 = specListAll ⟨[[dummyObj]]⟩ :=
  (C3_amended ⟨[[dummyObj]]⟩).2.2 [dummyObj] rfl

/-- C4 (counterexample): the download executor's reads are not bounded by
any fixed chunk size: for every candidate bound there is a body whose
single `stream.read()` payload exceeds it — the whole object is
materialized in memory at once. -/
theorem C4_counterexample :
    ¬ ∃ cap : Nat, ∀ body : List Nat,
        ∀ r ∈ (download_one_file (.ok body)).reads, r.length ≤ cap := by
  rintro ⟨cap, h⟩
  have hc := h (List.replicate (cap + 1) 0) (List.replicate (cap + 1) 0)
    (by simp [download_one_file])
  rw [List.length_replicate] at hc
  omega

/-- C4 (amended): a successful download performs exactly one
`stream.read()` whose payload is the entire body, so the peak read
buffer equals the object size — memory per transfer grows with the
object rather than being bounded — and the whole body is then written to
the destination in one step. -/
theorem C4_amended (body : List Nat) :
    (download_one_file (.ok body)).reads = [body] ∧
    maxReadSize (download_one_file (.ok body)) = body.length ∧
    (download_one_file (.ok body)).written = some body := by
  refine ⟨rfl, ?_, rfl⟩
  simp [maxReadSize, download_one_file]

/-- C5 (counterexample): on a ClientError (such as a nonexistent key) the
executor does not surface the failure as the call's outcome: it
terminates the process from inside the task via `sys.exit`. -/
theorem C5_counterexample :
    (download_one_file (.clientError "The specified key does not exist.")).outcome =
      DLOutcome.exited "The specified key does not exist." ∧
    DLOutcome.exited "The specified key does not exist." ≠ DLOutcome.completed := by
  decide

/-- C5 (amended): a download of a nonexistent key issues exactly one
`get_object` (no retry) and then `sys.exit`s inside the executor with the
storage error's message, reading and writing nothing. -/
theorem C5_amended (msg : String) :
    (download_one_file (.clientError msg)).outcome = .exited msg ∧
    (download_one_file (.clientError msg)).getCalls = 1 ∧
    (download_one_file (.clientError msg)).reads = [] ∧
    (download_one_file (.clientError msg)).written = none :=
  ⟨rfl, rfl, rfl, rfl⟩

/-- C6 (counterexample): for a root directory sitting directly under the
filesystem root — `os.walk` base `/photos`, parent `/` — the derived key
is `hotos/a.jpg`: the slice `path[len(parent)+1:]` drops one character
too many because `os.path.join("/", "photos")` inserts no separator, so
the key is not the file's path `photos/a.jpg` relative to the parent. -/
theorem C6_counterexample :
    upload_tasks "/" (FTree.dir "photos" (.fcons (.file "a.jpg") .fnil)) =
      [("/photos/a.jpg", "hotos/a.jpg")] ∧
    relKeys (FTree.dir "photos" (.fcons (.file "a.jpg") .fnil)) =
      ["photos/a.jpg"] ∧
    ("hotos/a.jpg" : String) ≠ "photos/a.jpg" := by decide

/-- C6 (amended): whenever the parent of the uploaded root is neither
empty nor `/`-terminated (in particular, the root is not directly under
the filesystem root) and the tree's entry names are valid, every file's
derived object key is exactly its `/`-joined path relative to that
parent, with the top directory name as first segment, and the local
source is the key resolved under the parent; in particular the `photos/`
example produces exactly the two put keys `photos/a.jpg` and
`photos/sub/b.jpg`. -/
theorem C6_amended (parent : String) (t : FTree)
    (hp1 : parent ≠ "") (hp2 : endsWithSlash parent = false)
    (hv : validTree t = true) :
    upload_tasks parent t = (relKeys t).map (fun k => (parent ++ "/" ++ k, k)) ∧
    upload_tasks "/home/user" photosTree =
      [("/home/user/photos/a.jpg", "photos/a.jpg"),
       ("/home/user/photos/sub/b.jpg", "photos/sub/b.jpg")] :=
  ⟨upload_tasks_rel parent t hp1 hp2 hv, by decide⟩

/-- C6 (witness): instantiation at the photos example under
`/home/user`. -/
theorem C6_witness :
    upload_tasks "/home/user" photosTree =
      (relKeys photosTree).map (fun k => ("/home/user" ++ "/" ++ k, k)) :=
  (C6_amended "/home/user" photosTree (by decide) (by decide) (by decide)).1

/-- C7 (witness): key `y/z.jpg` in bucket `mybucket` — two segments, two
directories created, destination `mybucket/y/z.jpg`, idempotent
re-run. -/
theorem C7_witness :
    process_key "mybucket" "y/z.jpg" [] =
      .ok ("mybucket/y/z.jpg", ["mybucket/y", "mybucket"], 2) ∧
    process_key "mybucket" "y/z.jpg" ["mybucket/y", "mybucket"] =
      .ok ("mybucket/y/z.jpg", ["mybucket/y", "mybucket"], 0) := by
  obtain ⟨h1, h2⟩ := C7_download_path "mybucket" "y/z.jpg" (by decide) (by decide)
  have hch : (pchain "" ("mybucket" :: (pysplit "y/z.jpg").dropLast)).reverse =
      ["mybucket/y", "mybucket"] := by decide
  constructor
  · rw [h1]
    decide
  · rw [← hch, h2]
    decide

/-- C8: when the `get` destination is not an existing directory the run
terminates with a nonzero exit and a message before scheduling any task,
so no network request is ever made. -/
theorem C8_get_invalid_dest (isdir : String → Bool) (src dest bucket : String)
    (h : isdir dest = false) :
    get_cmd isdir src dest bucket = .exited (dest ++ " is not directory") ∧
    getNetworkCalls (get_cmd isdir src dest bucket) = 0 ∧
    getExitsNonzero (get_cmd isdir src dest bucket) = true := by
  simp [get_cmd, h, getNetworkCalls, getExitsNonzero]

/-- C8 (witness): a destination that is not a directory. -/
theorem C8_witness :
    get_cmd (fun _ => false) "a/x.jpg" "/nosuch" "mybucket" =
      .exited ("/nosuch" ++ " is not directory") ∧
    getNetworkCalls (get_cmd (fun _ => false) "a/x.jpg" "/nosuch" "mybucket") = 0 ∧
    getExitsNonzero (get_cmd (fun _ => false) "a/x.jpg" "/nosuch" "mybucket") = true :=
  C8_get_invalid_dest (fun _ => false) "a/x.jpg" "/nosuch" "mybucket" rfl

/-- C9: the list command prints one line per object in listing order,
replacing an empty owner DisplayName with "unknown" and keeping every
other DisplayName unchanged. -/
theorem C9_list_output (contents : List S3Obj) :
    list_bucket_output contents =
      contents.map (fun o =>
        (if o.owner.displayName = "" then "unknown" else o.owner.displayName) ++
          " " ++ o.owner.id ++ " " ++ o.lastModified ++ " " ++ o.key) ∧
    (list_bucket_output contents).length = contents.length := by
  constructor
  · unfold list_bucket_output
    apply List.map_congr_left
    intro o _
    simp only [list_line]
    rw [if_congr (string_length_eq_zero_iff o.owner.displayName) rfl rfl]
  · simp [list_bucket_output]

/-- C10: an upload whose source is not a directory prints a message but
does not exit; the walk of the non-directory yields nothing, so zero
upload tasks are produced and no put call is issued — unlike `get`,
which exits on an invalid destination. -/
theorem C10_upload_non_dir (p src : String) (n : FsNode)
    (h : nodeIsDir n = false)
    (isdir : String → Bool) (s2 d2 b2 : String) (h2 : isdir d2 = false) :
    upload_cmd p src n = ⟨[src ++ " is not a directory"], [], none⟩ ∧
    getExitsNonzero (get_cmd isdir s2 d2 b2) = true := by
  constructor
  · have htasks : walkNode p n = [] := by
      cases n with
      | missing => rfl
      | node t =>
        cases t with
        | file nm => simp [walkNode, walk]
        | dir nm cs => simp [nodeIsDir] at h
    simp [upload_cmd, h, htasks]
  · simp [get_cmd, h2, getExitsNonzero]

/-- C10 (witness): source is a regular file; get contrast with a bad
destination. -/
theorem C10_witness :
    upload_cmd "/home" "notes.txt" (.node (.file "notes.txt")) =
      ⟨["notes.txt" ++ " is not a directory"], [], none⟩ ∧
    getExitsNonzero (get_cmd (fun _ => false) "a" "b" "c") = true :=
  C10_upload_non_dir "/home" "notes.txt" (.node (.file "notes.txt")) rfl
    (fun _ => false) "a" "b" "c" rfl

end Photo
